import Mathlib

/-!
Shallow embedding of `src/wireviz/wv_utils.py` (WireViz utility module).

The embedded functions are `expand`, `parse_number_and_unit`, `awg_equiv`,
`mm2_equiv` and the two lookup tables.  Python's built-in `int()` and
`float()` conversions are modelled by `pyIntOfChars` and `pyFloatOfChars`
(ASCII domain: optional surrounding whitespace, optional sign, decimal
digits with PEP-515 underscore rules; `float()` additionally accepts a
fractional part, an exponent, and the special tokens inf/infinity/nan).
Python's `str()` of an `int` is modelled by `pyStrInt`.
-/

/-- ASCII whitespace stripped by Python's `int()`/`float()` conversions
(Python also strips some further Unicode space characters; the embedded
domain is ASCII). -/
def isPyWs (c : Char) : Bool :=
  c = ' ' || c = '\t' || c = '\n' || c = '\r' || c = '\x0b' || c = '\x0c'

/-- Drop trailing characters satisfying `p`. -/
def dropTrailing (p : Char → Bool) (cs : List Char) : List Char :=
  (cs.reverse.dropWhile p).reverse

/-- Strip leading and trailing whitespace, as `int()`/`float()` do. -/
def stripWs (cs : List Char) : List Char :=
  dropTrailing isPyWs (cs.dropWhile isPyWs)

/-- Numeric value of an ASCII digit character. -/
def digitVal (c : Char) : Nat := c.toNat - 48

/-- Digit-string accumulator for `parseUDigits`: consumes decimal digits,
allowing a single `_` between two digits (PEP 515), returning the value
and the number of digits consumed. -/
def udAux : List Char → Nat → Nat → Option (Nat × Nat)
  | [], v, len => some (v, len)
  | c :: cs, v, len =>
    if c.isDigit then udAux cs (v * 10 + digitVal c) (len + 1)
    else if c = '_' then
      match cs with
      | d :: cs' => if d.isDigit then udAux cs' (v * 10 + digitVal d) (len + 1) else none
      | [] => none
    else none

/-- Parse a non-empty run of decimal digits with underscore separators
(as accepted inside Python `int()`/`float()` literals): returns the value
and the digit count, or `none` if the run is malformed. -/
def parseUDigits : List Char → Option (Nat × Nat)
  | [] => none
  | c :: cs => if c.isDigit then udAux cs (digitVal c) 1 else none

/-- Python `int(s)` on an ASCII string: strip whitespace, optional sign,
then a non-empty underscore-separated digit run. -/
def pyIntOfChars (cs : List Char) : Option Int :=
  match stripWs cs with
  | [] => none
  | c :: rest =>
    if c = '+' then (parseUDigits rest).map (fun p => (p.1 : Int))
    else if c = '-' then (parseUDigits rest).map (fun p => -(p.1 : Int))
    else (parseUDigits (c :: rest)).map (fun p => (p.1 : Int))

/-- Python `int(s)` for `s : String`. -/
def pyInt (s : String) : Option Int := pyIntOfChars s.data

/-- The ASCII digit character for `d < 10` (clamped at `'9'`). -/
def digitChar (d : Nat) : Char :=
  match d with
  | 0 => '0' | 1 => '1' | 2 => '2' | 3 => '3' | 4 => '4'
  | 5 => '5' | 6 => '6' | 7 => '7' | 8 => '8' | _ => '9'

/-- Decimal digits of `n`, most significant first; fuel-based so that it
reduces in the kernel.  `fuel > n` suffices. -/
def natDigitsAux : Nat → Nat → List Char
  | 0, _ => []
  | fuel + 1, n =>
    if n < 10 then [digitChar n]
    else natDigitsAux fuel (n / 10) ++ [digitChar (n % 10)]

/-- Decimal representation of a natural number (no leading zeros,
`0 ↦ "0"`), as produced by Python's `str()`. -/
def natDigits (n : Nat) : List Char := natDigitsAux (n + 1) n

/-- Python `str()` of an `int`: optional `-` sign followed by the decimal
digits of the absolute value. -/
def pyStrInt (n : Int) : List Char :=
  if n < 0 then '-' :: natDigits n.natAbs else natDigits n.toNat

/-- A scalar appearing in the YAML data handled by `expand`: an integer or
a string.  (A float scalar behaves exactly like the string `str(float)`
because `expand` begins with `e = str(e)`.) -/
inductive PyScalar where
  | i : Int → PyScalar
  | s : String → PyScalar
deriving DecidableEq, Repr

/-- Python `str()` on a scalar. -/
def pyStrS : PyScalar → String
  | .i n => String.mk (pyStrInt n)
  | .s st => st

/-- `cs.split(sep, 1)` when `sep` occurs in `cs`: the parts before and
after the first occurrence. -/
def splitFirst (sep : Char) : List Char → List Char × List Char
  | [] => ([], [])
  | c :: cs =>
    if c = sep then ([], cs)
    else
      let p := splitFirst sep cs
      (c :: p.1, p.2)

/-- The list produced by Python `range(a, b + 1)`: `a, a+1, …, b`. -/
def ascRun (a b : Int) : List Int :=
  (List.range (b + 1 - a).toNat).map fun (k : Nat) => a + (k : Int)

/-- The list produced by Python `range(a, b - 1, -1)`: `a, a-1, …, b`. -/
def descRun (a b : Int) : List Int :=
  (List.range (a + 1 - b).toNat).map fun (k : Nat) => a - (k : Int)

/-- Body of the per-element loop of `expand` applied to `e = str(e)`:
if `e` contains `-`, split at the first `-` and try to parse both sides
as integers, emitting the inclusive (ascending or descending) range on
success and the original string on failure; otherwise emit the integer
parse of `e` if it succeeds, else the original string. -/
def expandStr (e : String) : List PyScalar :=
  if e.data.contains '-' then
    match pyIntOfChars (splitFirst '-' e.data).1, pyIntOfChars (splitFirst '-' e.data).2 with
    | some a, some b =>
      if a < b then (ascRun a b).map PyScalar.i
      else if b < a then (descRun a b).map PyScalar.i
      else [PyScalar.i a]
    | _, _ => [PyScalar.s e]
  else
    match pyIntOfChars e.data with
    | some x => [PyScalar.i x]
    | none => [PyScalar.s e]

/-- The `for e in yaml_data` loop of `expand`, accumulating `output`. -/
def expandList : List PyScalar → List PyScalar
  | [] => []
  | x :: xs => expandStr (pyStrS x) ++ expandList xs

/-- The argument of `expand`: a singleton scalar or a list of scalars. -/
inductive ExpandInput where
  | scalar : PyScalar → ExpandInput
  | list : List PyScalar → ExpandInput
deriving DecidableEq, Repr

/-- `expand(yaml_data)` from `wv_utils.py`: a non-list argument is wrapped
into a one-element list, then each element is range-expanded. -/
def expand : ExpandInput → List PyScalar
  | .scalar x => expandList [x]
  | .list xs => expandList xs

/-- The value classes of a Python float, as far as `float(str)` can
produce them.  Finite values are modelled as exact rationals (the decimal
value denoted by the literal); no claim inspects binary rounding. -/
inductive PyFloat where
  | finite : Rat → PyFloat
  | inf : PyFloat
  | ninf : PyFloat
  | nan : PyFloat
deriving DecidableEq, Repr

/-- Negation of a `PyFloat` (applied for a leading `-` sign; the sign of a
nan is not observable). -/
def PyFloat.neg : PyFloat → PyFloat
  | .finite q => .finite (-q)
  | .inf => .ninf
  | .ninf => .inf
  | .nan => .nan

/-- Split the character list at the first `e`/`E` (the exponent marker of
a float literal); `none` if there is no exponent part. -/
def splitAtExp : List Char → List Char × Option (List Char)
  | [] => ([], none)
  | c :: cs =>
    if c = 'e' || c = 'E' then ([], some cs)
    else
      let p := splitAtExp cs
      (c :: p.1, p.2)

/-- A possibly-empty digit group (the integer or fractional part of a
float literal may be empty as long as the other is not). -/
def parseUDigitsOpt : List Char → Option (Nat × Nat)
  | [] => some (0, 0)
  | c :: cs => parseUDigits (c :: cs)

/-- Parse the mantissa `digits [. digits]` of a float literal into its
exact rational value; at least one digit must be present. -/
def parseMantissa (cs : List Char) : Option Rat :=
  let p := if cs.contains '.' then splitFirst '.' cs else (cs, [])
  match parseUDigitsOpt p.1, parseUDigitsOpt p.2 with
  | some iv, some fv =>
    if iv.2 + fv.2 = 0 then none
    else some (((iv.1 : Rat) * 10 ^ fv.2 + fv.1) / 10 ^ fv.2)
  | _, _ => none

/-- Parse the exponent of a float literal: optional sign and a non-empty
digit run. -/
def parseExp : List Char → Option Int
  | [] => none
  | c :: cs =>
    if c = '+' then (parseUDigits cs).map (fun p => (p.1 : Int))
    else if c = '-' then (parseUDigits cs).map (fun p => -(p.1 : Int))
    else (parseUDigits (c :: cs)).map (fun p => (p.1 : Int))

/-- Scale a mantissa by `10 ^ e`. -/
def applyExp (q : Rat) (e : Int) : Rat :=
  if 0 ≤ e then q * 10 ^ e.toNat else q / 10 ^ (-e).toNat

/-- Lower-case a character list (for the case-insensitive inf/nan
tokens). -/
def lowerList (cs : List Char) : List Char := cs.map Char.toLower

/-- Parse the body of a float literal after the optional leading sign:
`inf`/`infinity`/`nan` (case-insensitive) or mantissa with optional
exponent. -/
def parseFloatBody (cs : List Char) : Option PyFloat :=
  if lowerList cs = "inf".data || lowerList cs = "infinity".data then some .inf
  else if lowerList cs = "nan".data then some .nan
  else
    match parseMantissa (splitAtExp cs).1, (splitAtExp cs).2 with
    | some m, none => some (.finite m)
    | some m, some ec => (parseExp ec).map fun e => .finite (applyExp m e)
    | none, _ => none

/-- Python `float(s)` on an ASCII string: strip whitespace, optional
sign, then the float body. -/
def pyFloatOfChars (cs : List Char) : Option PyFloat :=
  match stripWs cs with
  | [] => none
  | c :: rest =>
    if c = '+' then parseFloatBody rest
    else if c = '-' then (parseFloatBody rest).map PyFloat.neg
    else parseFloatBody (c :: rest)

/-- Python `float(s)` for `s : String`. -/
def pyFloat (s : String) : Option PyFloat := pyFloatOfChars s.data

/-- A Python number as stored in `NumberAndUnit.number`: the result of
`int()` or `float()`. -/
inductive PyNumber where
  | intNum : Int → PyNumber
  | floatNum : PyFloat → PyNumber
deriving DecidableEq, Repr

/-- The `NumberAndUnit` namedtuple of `wv_utils.py`. -/
structure NumberAndUnit where
  number : PyNumber
  unit : Option String
deriving DecidableEq, Repr

/-- The argument of `parse_number_and_unit`: `None`, an existing
`NumberAndUnit`, a bare number, a string, or a value of any other type
(matched by no `isinstance` branch). -/
inductive PNUInput where
  | nothing : PNUInput
  | pair : NumberAndUnit → PNUInput
  | num : PyNumber → PNUInput
  | str : String → PNUInput
  | other : PNUInput
deriving DecidableEq, Repr

/-- The numeric token of a quantity string: the part before the first
space, or the whole string when it has no space (`inp.split(" ", 1)`). -/
def numToken (s : String) : List Char :=
  if s.data.contains ' ' then (splitFirst ' ' s.data).1 else s.data

/-- The unit of a quantity string: the remainder after the first space,
or the default unit when the string has no space. -/
def unitPart (s : String) (default_unit : Option String) : Option String :=
  if s.data.contains ' ' then some (String.mk (splitFirst ' ' s.data).2) else default_unit

/-- `parse_number_and_unit(inp, default_unit)` from `wv_utils.py`.  The
error case (Python raises `Exception` with a message built from `inp`)
is modelled as `Except.error` carrying the offending input string. -/
def parse_number_and_unit (inp : PNUInput) (default_unit : Option String) :
    Except String (Option NumberAndUnit) :=
  match inp with
  | .nothing => .ok none
  | .pair x => .ok (some x)
  | .num n => .ok (some ⟨n, default_unit⟩)
  | .str s =>
    match pyIntOfChars (numToken s) with
    | some n => .ok (some ⟨.intNum n, unitPart s default_unit⟩)
    | none =>
      match pyFloatOfChars (numToken s) with
      | some f => .ok (some ⟨.floatNum f, unitPart s default_unit⟩)
      | none => .error s
  | .other => .ok none

/-- `awg_equiv_table` from `wv_utils.py` (mm² cross-section to AWG). -/
def awg_equiv_table : List (String × String) :=
  [("0.09", "28"), ("0.14", "26"), ("0.25", "24"), ("0.34", "22"),
   ("0.5", "21"), ("0.75", "20"), ("1", "18"), ("1.5", "16"),
   ("2.5", "14"), ("4", "12"), ("6", "10"), ("10", "8"),
   ("16", "6"), ("25", "4"), ("35", "2"), ("50", "1")]

/-- `mm2_equiv_table = {v: k for k, v in awg_equiv_table.items()}`: the
values of `awg_equiv_table` are pairwise distinct, so the comprehension
is exactly the pairwise swap. -/
def mm2_equiv_table : List (String × String) :=
  awg_equiv_table.map (fun p => (p.2, p.1))

/-- Python `dict.get(k, d)` on an association list with distinct keys. -/
def dictGet (tbl : List (String × String)) (k d : String) : String :=
  match tbl.find? (fun p => p.1 == k) with
  | some p => p.2
  | none => d

/-- `awg_equiv(mm2) = awg_equiv_table.get(str(mm2), "Unknown")`. -/
def awg_equiv (mm2 : PyScalar) : String :=
  dictGet awg_equiv_table (pyStrS mm2) "Unknown"

/-- `mm2_equiv(awg) = mm2_equiv_table.get(str(awg), "Unknown")`. -/
def mm2_equiv (awg : PyScalar) : String :=
  dictGet mm2_equiv_table (pyStrS awg) "Unknown"

/-- The list the `for` loop of `expand` iterates over: a non-list
argument is wrapped into a one-element list. -/
def inputList : ExpandInput → List PyScalar
  | .scalar x => [x]
  | .list xs => xs

/-- Whether a scalar is a range token: a string that contains `-` and
splits at its first `-` into two integer-parseable parts. -/
def isRangeToken (x : PyScalar) : Bool :=
  match x with
  | .s t =>
    t.data.contains '-' &&
      (pyIntOfChars (splitFirst '-' t.data).1).isSome &&
      (pyIntOfChars (splitFirst '-' t.data).2).isSome
  | .i _ => false

/-- Whether a scalar is a negative integer. -/
def isNegInt : PyScalar → Bool
  | .i n => decide (n < 0)
  | .s _ => false

/-- Whether `expand` passes the string form of an element through
unchanged: a string with `-` that does not split into two integers, or a
string without `-` that does not parse as an integer. -/
def unparseable (s : String) : Bool :=
  if s.data.contains '-' then
    !((pyIntOfChars (splitFirst '-' s.data).1).isSome &&
      (pyIntOfChars (splitFirst '-' s.data).2).isSome)
  else (pyIntOfChars s.data).isNone

/-- The value of a digit string read left to right starting from `v`. -/
def foldDigits (v : Nat) (ds : List Char) : Nat :=
  ds.foldl (fun a c => a * 10 + digitVal c) v

example : expand (.scalar (.i 5)) = [.i 5] := by decide
example : expand (.scalar (.s "1-3")) = [.i 1, .i 2, .i 3] := by decide
example : expand (.scalar (.s "3-1")) = [.i 3, .i 2, .i 1] := by decide
example : expand (.scalar (.s "2-2")) = [.i 2] := by decide
example : expand (.list [.s "1-3", .s "X"]) = [.i 1, .i 2, .i 3, .s "X"] := by decide
example : expand (.scalar (.s "-5")) = [.s "-5"] := by decide
example : expand (.scalar (.s "3--1")) = [.i 3, .i 2, .i 1, .i 0, .i (-1)] := by decide
example : expand (.scalar (.i (-1))) = [.s "-1"] := by decide
example : pyInt " 42 " = some 42 := by decide
example : pyInt "1_0" = some 10 := by decide
example : pyInt "1__0" = none := by decide
example : pyInt "_1" = none := by decide
example : pyInt "1_" = none := by decide
example : pyInt "+7" = some 7 := by decide
example : pyInt "" = none := by decide
example : (pyFloat "3.5").isSome = true := by decide
example : (pyFloat ".5e1").isSome = true := by decide
example : (pyFloat "5.").isSome = true := by decide
example : (pyFloat "1_0.5").isSome = true := by decide
example : pyFloat "-inf" = some .ninf := by decide
example : pyFloat "NaN" = some .nan := by decide
example : pyFloat "." = none := by decide
example : pyFloat "1e" = none := by decide
example : (pyFloat "1e-1").isSome = true := by decide
example : pyFloat "abc" = none := by decide
example : pyFloat "1..2" = none := by decide
example : parse_number_and_unit (.str "5 mm") none =
    .ok (some ⟨.intNum 5, some "mm"⟩) := rfl
example : parse_number_and_unit (.str "5") (some "mm") =
    .ok (some ⟨.intNum 5, some "mm"⟩) := rfl
example : parse_number_and_unit (.str "abc") none = .error "abc" := rfl
example : parse_number_and_unit .nothing (some "mm") = .ok none := rfl
example :
    (match parse_number_and_unit (.str "3.2 V q") none with
     | .ok (some x) => x.unit
     | _ => none) = some "V q" := rfl
example : awg_equiv (.s "0.5") = "21" := by decide
example : mm2_equiv (.s "21") = "0.5" := by decide
example : awg_equiv (.i 4) = "12" := by decide
example : awg_equiv (.s "nope") = "Unknown" := by decide

/-! ### Helper lemmas about digit strings and Python `int()` parsing -/

lemma digitChar_isDigit (d : Nat) : (digitChar d).isDigit = true := by
  unfold digitChar
  split <;> decide

lemma digitChar_val (d : Nat) (h : d < 10) : digitVal (digitChar d) = d := by
  interval_cases d <;> decide

lemma natDigitsAux_isDigit (fuel : Nat) :
    ∀ n, n < fuel → ∀ c ∈ natDigitsAux fuel n, c.isDigit = true := by
  induction fuel with
  | zero => intro n h; omega
  | succ f ih =>
    intro n _ c hc
    rw [natDigitsAux] at hc
    split at hc
    · simp only [List.mem_singleton] at hc
      subst hc
      exact digitChar_isDigit n
    · rcases List.mem_append.mp hc with h1 | h2
      · exact ih (n / 10) (by omega) c h1
      · simp only [List.mem_singleton] at h2
        subst h2
        exact digitChar_isDigit (n % 10)

lemma natDigitsAux_ne_nil (fuel : Nat) :
    ∀ n, n < fuel → natDigitsAux fuel n ≠ [] := by
  induction fuel with
  | zero => intro n h; omega
  | succ f _ =>
    intro n _
    rw [natDigitsAux]
    split
    · simp
    · simp

lemma natDigitsAux_foldVal (fuel : Nat) :
    ∀ n v, n < fuel →
      foldDigits v (natDigitsAux fuel n) =
        v * 10 ^ (natDigitsAux fuel n).length + n := by
  induction fuel with
  | zero => intro n v h; omega
  | succ f ih =>
    intro n v _
    rw [natDigitsAux]
    split
    · rename_i h10
      simp [foldDigits, digitChar_val n h10]
    · rename_i h10
      have hf : n / 10 < f := by omega
      have h1 := ih (n / 10) v hf
      set L := (natDigitsAux f (n / 10)).length with hL
      rw [foldDigits] at h1 ⊢
      rw [List.foldl_append, h1, List.length_append]
      rw [show (List.length [digitChar (n % 10)]) = 1 from rfl]
      rw [show List.foldl (fun a c => a * 10 + digitVal c) (v * 10 ^ L + n / 10)
            [digitChar (n % 10)] =
          (v * 10 ^ L + n / 10) * 10 + digitVal (digitChar (n % 10)) from rfl]
      rw [digitChar_val (n % 10) (by omega)]
      rw [pow_succ, ← mul_assoc]
      generalize v * 10 ^ L = B
      omega

lemma natDigits_isDigit (m : Nat) : ∀ c ∈ natDigits m, c.isDigit = true :=
  natDigitsAux_isDigit (m + 1) m (by omega)

lemma natDigits_ne_nil (m : Nat) : natDigits m ≠ [] :=
  natDigitsAux_ne_nil (m + 1) m (by omega)

lemma natDigits_foldVal (m : Nat) : foldDigits 0 (natDigits m) = m := by
  have := natDigitsAux_foldVal (m + 1) m 0 (by omega)
  simpa [natDigits] using this

lemma udAux_digits (ds : List Char) :
    ∀ v len, (∀ c ∈ ds, c.isDigit = true) →
      udAux ds v len = some (foldDigits v ds, len + ds.length) := by
  induction ds with
  | nil => intro v len _; simp [udAux, foldDigits]
  | cons c cs ih =>
    intro v len h
    have hc : c.isDigit = true := h c (List.mem_cons_self c cs)
    rw [udAux.eq_def]
    split
    · rename_i heq
      exact absurd heq (List.cons_ne_nil c cs)
    · rename_i heq
      injection heq with h1 h2
      subst h1
      subst h2
      rw [if_pos hc, ih _ _ (fun c' hc' => h c' (List.mem_cons_of_mem c hc'))]
      simp only [foldDigits, List.foldl_cons, List.length_cons]
      congr 2
      omega

lemma parseUDigits_digits (ds : List Char) (hne : ds ≠ [])
    (h : ∀ c ∈ ds, c.isDigit = true) :
    parseUDigits ds = some (foldDigits 0 ds, ds.length) := by
  cases ds with
  | nil => exact absurd rfl hne
  | cons c cs =>
    have hc : c.isDigit = true := h c (List.mem_cons_self c cs)
    rw [parseUDigits, if_pos hc,
      udAux_digits cs (digitVal c) 1 (fun c' hc' => h c' (List.mem_cons_of_mem c hc'))]
    simp only [foldDigits, List.foldl_cons, List.length_cons]
    congr 2
    · simp
    · omega

lemma dropWhile_eq_self (p : Char → Bool) (cs : List Char)
    (h : ∀ c ∈ cs, p c = false) : cs.dropWhile p = cs := by
  cases cs with
  | nil => rfl
  | cons c cs =>
    rw [List.dropWhile_cons, if_neg]
    simp [h c (List.mem_cons_self c cs)]

lemma stripWs_eq_self (cs : List Char) (h : ∀ c ∈ cs, isPyWs c = false) :
    stripWs cs = cs := by
  unfold stripWs dropTrailing
  rw [dropWhile_eq_self _ _ h,
    dropWhile_eq_self _ _ (fun c hc => h c (List.mem_reverse.mp hc)),
    List.reverse_reverse]

lemma digit_not_ws (c : Char) (h : c.isDigit = true) : isPyWs c = false := by
  cases hw : isPyWs c with
  | false => rfl
  | true =>
    exfalso
    simp only [isPyWs, Bool.or_eq_true, decide_eq_true_eq] at hw
    rcases hw with ((((h1 | h1) | h1) | h1) | h1) | h1 <;>
      (subst h1; exact absurd h (by decide))

lemma digit_ne_plus (c : Char) (h : c.isDigit = true) : ¬(c = '+') := by
  intro he; subst he; exact absurd h (by decide)

lemma digit_ne_minus (c : Char) (h : c.isDigit = true) : ¬(c = '-') := by
  intro he; subst he; exact absurd h (by decide)

lemma pyIntOfChars_digits (ds : List Char) (hne : ds ≠ [])
    (h : ∀ c ∈ ds, c.isDigit = true) :
    pyIntOfChars ds = some ((foldDigits 0 ds : Nat) : Int) := by
  have hs : stripWs ds = ds := stripWs_eq_self ds (fun c hc => digit_not_ws c (h c hc))
  cases ds with
  | nil => exact absurd rfl hne
  | cons c cs =>
    have hc : c.isDigit = true := h c (List.mem_cons_self c cs)
    rw [pyIntOfChars, hs]
    show (if c = '+' then (parseUDigits cs).map (fun p => (p.1 : Int))
          else if c = '-' then (parseUDigits cs).map (fun p => -(p.1 : Int))
          else (parseUDigits (c :: cs)).map (fun p => (p.1 : Int))) =
        some ((foldDigits 0 (c :: cs) : Nat) : Int)
    rw [if_neg (digit_ne_plus c hc), if_neg (digit_ne_minus c hc)]
    rw [parseUDigits_digits (c :: cs) hne h]
    rfl

lemma all_digits_not_contains_dash (ds : List Char)
    (h : ∀ c ∈ ds, c.isDigit = true) : ds.contains '-' = false := by
  induction ds with
  | nil => rfl
  | cons c cs ih =>
    rw [List.contains_cons]
    have hc : c.isDigit = true := h c (List.mem_cons_self c cs)
    have h1 : ('-' == c) = false := by
      cases hb : ('-' == c) with
      | false => rfl
      | true => exact absurd hc (by rw [← eq_of_beq hb]; decide)
    rw [h1, ih (fun c' hc' => h c' (List.mem_cons_of_mem c hc'))]
    rfl

lemma pyIntOfChars_natDigits (m : Nat) :
    pyIntOfChars (natDigits m) = some (m : Int) := by
  rw [pyIntOfChars_digits (natDigits m) (natDigits_ne_nil m) (natDigits_isDigit m),
    natDigits_foldVal m]

/-! ### Lemmas about `expandStr`, `expandList` and `expand` -/

lemma expandStr_both (e : String) (a b : Int) (hc : e.data.contains '-' = true)
    (h1 : pyIntOfChars (splitFirst '-' e.data).1 = some a)
    (h2 : pyIntOfChars (splitFirst '-' e.data).2 = some b) :
    expandStr e =
      if a < b then (ascRun a b).map PyScalar.i
      else if b < a then (descRun a b).map PyScalar.i
      else [PyScalar.i a] := by
  rw [expandStr, if_pos hc, h1, h2]

lemma expandStr_fallback (e : String) (hc : e.data.contains '-' = true)
    (h : pyIntOfChars (splitFirst '-' e.data).1 = none ∨
      pyIntOfChars (splitFirst '-' e.data).2 = none) :
    expandStr e = [PyScalar.s e] := by
  rw [expandStr, if_pos hc]
  cases ha : pyIntOfChars (splitFirst '-' e.data).1 with
  | none => cases hb : pyIntOfChars (splitFirst '-' e.data).2 <;> rfl
  | some a =>
    cases hb : pyIntOfChars (splitFirst '-' e.data).2 with
    | none => rfl
    | some b =>
      rw [ha, hb] at h
      rcases h with h | h <;> exact absurd h (by simp)

lemma expandStr_int (e : String) (x : Int) (hc : e.data.contains '-' = false)
    (hp : pyIntOfChars e.data = some x) : expandStr e = [PyScalar.i x] := by
  rw [expandStr, if_neg (by rw [hc]; exact Bool.false_ne_true), hp]

lemma expandStr_passthrough (e : String) (hc : e.data.contains '-' = false)
    (hp : pyIntOfChars e.data = none) : expandStr e = [PyScalar.s e] := by
  rw [expandStr, if_neg (by rw [hc]; exact Bool.false_ne_true), hp]

lemma int_stable (n : Int) (h : 0 ≤ n) :
    expandStr (pyStrS (PyScalar.i n)) = [PyScalar.i n] := by
  have hstr : pyStrS (PyScalar.i n) = String.mk (natDigits n.toNat) := by
    simp only [pyStrS, pyStrInt]
    rw [if_neg (by omega)]
  rw [hstr]
  have hdata : (String.mk (natDigits n.toNat)).data = natDigits n.toNat := rfl
  rw [expandStr_int _ n
    (by rw [hdata]; exact all_digits_not_contains_dash _ (natDigits_isDigit n.toNat))
    (by rw [hdata, pyIntOfChars_natDigits, Int.toNat_of_nonneg h])]

lemma str_stable (u t : String) (h : PyScalar.s t ∈ expandStr u) :
    expandStr t = [PyScalar.s t] := by
  cases hc : u.data.contains '-' with
  | true =>
    cases h1 : pyIntOfChars (splitFirst '-' u.data).1 with
    | some a =>
      cases h2 : pyIntOfChars (splitFirst '-' u.data).2 with
      | some b =>
        rw [expandStr_both u a b hc h1 h2] at h
        exfalso
        split at h
        · rw [List.mem_map] at h
          obtain ⟨k, _, hk⟩ := h
          exact PyScalar.noConfusion hk
        · split at h
          · rw [List.mem_map] at h
            obtain ⟨k, _, hk⟩ := h
            exact PyScalar.noConfusion hk
          · simp at h
      | none =>
        rw [expandStr_fallback u hc (Or.inr h2)] at h
        simp only [List.mem_singleton, PyScalar.s.injEq] at h
        subst h
        exact expandStr_fallback t hc (Or.inr h2)
    | none =>
      rw [expandStr_fallback u hc (Or.inl h1)] at h
      simp only [List.mem_singleton, PyScalar.s.injEq] at h
      subst h
      exact expandStr_fallback t hc (Or.inl h1)
  | false =>
    cases hp : pyIntOfChars u.data with
    | some x =>
      rw [expandStr_int u x hc hp] at h
      simp at h
    | none =>
      rw [expandStr_passthrough u hc hp] at h
      simp only [List.mem_singleton, PyScalar.s.injEq] at h
      subst h
      exact expandStr_passthrough t hc hp

lemma expandList_stable (xs : List PyScalar)
    (h : ∀ e ∈ xs, expandStr (pyStrS e) = [e]) : expandList xs = xs := by
  induction xs with
  | nil => rfl
  | cons x xs ih =>
    rw [expandList, h x (List.mem_cons_self x xs),
      ih (fun e he => h e (List.mem_cons_of_mem x he))]
    rfl

lemma mem_expandList (e : PyScalar) (xs : List PyScalar) (h : e ∈ expandList xs) :
    ∃ x ∈ xs, e ∈ expandStr (pyStrS x) := by
  induction xs with
  | nil => exact absurd h (by simp [expandList])
  | cons x xs ih =>
    rw [expandList] at h
    rcases List.mem_append.mp h with h1 | h2
    · exact ⟨x, List.mem_cons_self x xs, h1⟩
    · obtain ⟨y, hy, hey⟩ := ih h2
      exact ⟨y, List.mem_cons_of_mem x hy, hey⟩

lemma mem_expandList_of_mem (a : PyScalar) (x : PyScalar) (xs : List PyScalar)
    (hx : x ∈ xs) (ha : a ∈ expandStr (pyStrS x)) : a ∈ expandList xs := by
  induction xs with
  | nil => exact absurd hx (List.not_mem_nil x)
  | cons y ys ih =>
    rw [expandList]
    rcases List.mem_cons.mp hx with h1 | h2
    · subst h1
      exact List.mem_append.mpr (Or.inl ha)
    · exact List.mem_append.mpr (Or.inr (ih h2))

lemma expandStr_unparseable (s : String) (h : unparseable s = true) :
    expandStr s = [PyScalar.s s] := by
  rw [unparseable] at h
  cases hc : s.data.contains '-' with
  | true =>
    rw [if_pos (by rw [hc])] at h
    cases h1 : pyIntOfChars (splitFirst '-' s.data).1 with
    | some a =>
      cases h2 : pyIntOfChars (splitFirst '-' s.data).2 with
      | some b => rw [h1, h2] at h; simp at h
      | none => exact expandStr_fallback s hc (Or.inr h2)
    | none => exact expandStr_fallback s hc (Or.inl h1)
  | false =>
    rw [if_neg (by rw [hc]; exact Bool.false_ne_true)] at h
    cases hp : pyIntOfChars s.data with
    | some x => rw [hp] at h; simp at h
    | none => exact expandStr_passthrough s hc hp

lemma expandStr_ne_nil (s : String) : expandStr s ≠ [] := by
  cases hc : s.data.contains '-' with
  | true =>
    cases h1 : pyIntOfChars (splitFirst '-' s.data).1 with
    | some a =>
      cases h2 : pyIntOfChars (splitFirst '-' s.data).2 with
      | some b =>
        rw [expandStr_both s a b hc h1 h2]
        by_cases hab : a < b
        · rw [if_pos hab]
          simp only [ne_eq, List.map_eq_nil_iff, ascRun, List.range_eq_nil]
          omega
        · rw [if_neg hab]
          by_cases hba : b < a
          · rw [if_pos hba]
            simp only [ne_eq, List.map_eq_nil_iff, descRun, List.range_eq_nil]
            omega
          · rw [if_neg hba]
            simp
      | none => rw [expandStr_fallback s hc (Or.inr h2)]; simp
    | none => rw [expandStr_fallback s hc (Or.inl h1)]; simp
  | false =>
    cases hp : pyIntOfChars s.data with
    | some x => rw [expandStr_int s x hc hp]; simp
    | none => rw [expandStr_passthrough s hc hp]; simp

/-! ### Claim theorems -/

/-- C1: for every element whose string form contains a `-`, `expand` splits it
at the first `-`; if both parts parse as integers `a` and `b` it emits the
inclusive integer run from `a` to `b` (ascending if `a < b`, descending if
`a > b`, a single value if `a = b`), and if either part fails to parse as an
integer (e.g. the token `"-5"`, whose left part is empty) it emits the
original string unchanged. -/
theorem expand_range_token_semantics (e : String)
    (h : e.data.contains '-' = true) :
    (∀ a b : Int,
        pyIntOfChars (splitFirst '-' e.data).1 = some a →
        pyIntOfChars (splitFirst '-' e.data).2 = some b →
        expandStr e =
          if a < b then
            (List.range (b + 1 - a).toNat).map (fun (k : Nat) => PyScalar.i (a + (k : Int)))
          else if b < a then
            (List.range (a + 1 - b).toNat).map (fun (k : Nat) => PyScalar.i (a - (k : Int)))
          else [PyScalar.i a]) ∧
    ((pyIntOfChars (splitFirst '-' e.data).1 = none ∨
      pyIntOfChars (splitFirst '-' e.data).2 = none) →
      expandStr e = [PyScalar.s e]) := by
  constructor
  · intro a b h1 h2
    rw [expandStr_both e a b h h1 h2]
    by_cases hab : a < b
    · rw [if_pos hab, if_pos hab, ascRun, List.map_map]
      rfl
    · rw [if_neg hab, if_neg hab]
      by_cases hba : b < a
      · rw [if_pos hba, if_pos hba, descRun, List.map_map]
        rfl
      · rw [if_neg hba, if_neg hba]
  · exact expandStr_fallback e h

/-- Witness for C1 at the spec's example `expand("-5")`: the token contains
`-`, its left part fails the integer parse, and the string passes through. -/
theorem expand_range_token_semantics_witness :
    ("-5".data.contains '-' = true) ∧ expandStr "-5" = [PyScalar.s "-5"] :=
  ⟨by decide, (expand_range_token_semantics "-5" (by decide)).2 (Or.inl (by decide))⟩

/-- C2 counterexample: the output of `expand("3--1")` is
`[3, 2, 1, 0, -1]`, which contains no range token (no string element that
splits at its first `-` into two integer-parseable parts), yet running
`expand` on it again changes the sequence: the negative integer `-1`
becomes the string `"-1"`. -/
theorem expand_not_idempotent_on_output :
    ((expand (.list [PyScalar.s "3--1"])).all (fun e => !(isRangeToken e)) = true) ∧
    expand (.list (expand (.list [PyScalar.s "3--1"]))) ≠
      expand (.list [PyScalar.s "3--1"]) := by
  decide

/-- C2 (amended): for every sequence that is the output of `expand`,
contains no remaining `-` range tokens, and contains no negative integer
elements, running `expand` again on that sequence returns the same
sequence unchanged. -/
theorem expand_idempotent_on_output (inp : ExpandInput)
    (hrange : ∀ e ∈ expand inp, isRangeToken e = false)
    (hneg : ∀ e ∈ expand inp, isNegInt e = false) :
    expand (.list (expand inp)) = expand inp := by
  show expandList (expand inp) = expand inp
  apply expandList_stable
  intro e he
  have hprov : ∃ x ∈ inputList inp, e ∈ expandStr (pyStrS x) := by
    cases inp with
    | scalar x => exact mem_expandList e [x] he
    | list xs => exact mem_expandList e xs he
  obtain ⟨x, _, hex⟩ := hprov
  cases e with
  | i n =>
    have h0 : 0 ≤ n := by
      have hb := hneg _ he
      simp only [isNegInt, decide_eq_false_iff_not] at hb
      omega
    exact int_stable n h0
  | s t => exact str_stable (pyStrS x) t hex

/-- Witness for C2 (amended) on the output of `expand(["1-3", "X"])`. -/
theorem expand_idempotent_on_output_witness :
    (∀ e ∈ expand (.list [PyScalar.s "1-3", PyScalar.s "X"]), isRangeToken e = false) ∧
    (∀ e ∈ expand (.list [PyScalar.s "1-3", PyScalar.s "X"]), isNegInt e = false) ∧
    expand (.list (expand (.list [PyScalar.s "1-3", PyScalar.s "X"]))) =
      expand (.list [PyScalar.s "1-3", PyScalar.s "X"]) :=
  ⟨by decide, by decide, expand_idempotent_on_output _ (by decide) (by decide)⟩

/-- C3: `parse_number_and_unit` returns an `InvalidQuantity` error carrying
the original input if and only if the input is a string whose numeric token
parses as neither an integer nor a float; for every other input it does not
raise. -/
theorem pnu_invalid_quantity_iff (inp : PNUInput) (du : Option String) :
    ((∃ msg, parse_number_and_unit inp du = Except.error msg) ↔
      (∃ s, inp = PNUInput.str s ∧ pyIntOfChars (numToken s) = none ∧
        pyFloatOfChars (numToken s) = none)) ∧
    (∀ msg, parse_number_and_unit inp du = Except.error msg →
      inp = PNUInput.str msg) := by
  cases inp with
  | nothing => simp [parse_number_and_unit]
  | pair x => simp [parse_number_and_unit]
  | num n => simp [parse_number_and_unit]
  | other => simp [parse_number_and_unit]
  | str s =>
    cases hi : pyIntOfChars (numToken s) with
    | some n => simp [parse_number_and_unit, hi]
    | none =>
      cases hf : pyFloatOfChars (numToken s) with
      | some f => simp [parse_number_and_unit, hi, hf]
      | none => simp [parse_number_and_unit, hi, hf]

/-- C4: on a string input, the numeric token is the part before the first
space (the whole string if there is no space, in which case the default
unit applies); the token is parsed as an integer first and as a float only
if that fails, and the result pairs the parsed number with the chosen
unit; `parse_number_and_unit("5 mm", None) = (5, "mm")`. -/
theorem pnu_string_split_semantics (s : String) (du : Option String) :
    (s.data.contains ' ' = true →
      numToken s = (splitFirst ' ' s.data).1 ∧
      unitPart s du = some (String.mk (splitFirst ' ' s.data).2)) ∧
    (s.data.contains ' ' = false →
      numToken s = s.data ∧ unitPart s du = du) ∧
    (∀ n : Int, pyIntOfChars (numToken s) = some n →
      parse_number_and_unit (.str s) du =
        Except.ok (some ⟨PyNumber.intNum n, unitPart s du⟩)) ∧
    (pyIntOfChars (numToken s) = none →
      ∀ f, pyFloatOfChars (numToken s) = some f →
        parse_number_and_unit (.str s) du =
          Except.ok (some ⟨PyNumber.floatNum f, unitPart s du⟩)) ∧
    parse_number_and_unit (.str "5 mm") none =
      Except.ok (some ⟨PyNumber.intNum 5, some "mm"⟩) := by
  refine ⟨?_, ?_, ?_, ?_, rfl⟩
  · intro h
    exact ⟨by rw [numToken, if_pos h], by rw [unitPart, if_pos h]⟩
  · intro h
    constructor
    · rw [numToken, if_neg (by rw [h]; exact Bool.false_ne_true)]
    · rw [unitPart, if_neg (by rw [h]; exact Bool.false_ne_true)]
  · intro n hn
    simp [parse_number_and_unit, hn]
  · intro hi f hf
    simp [parse_number_and_unit, hi, hf]

/-- C5: `parse_number_and_unit` returns an absent result for absent input,
returns an already-structured `NumberAndUnit` unchanged (for any default
unit), and pairs a bare number with the caller-supplied default unit. -/
theorem pnu_non_string_cases (x : NumberAndUnit) (n : PyNumber) (du : Option String) :
    parse_number_and_unit .nothing du = Except.ok none ∧
    parse_number_and_unit (.pair x) du = Except.ok (some x) ∧
    parse_number_and_unit (.num n) du = Except.ok (some ⟨n, du⟩) :=
  ⟨rfl, rfl, rfl⟩

/-- C6: `expand` never fails: it is a total function on scalars and lists
of scalars (each element contributes a non-empty segment), and every
element whose string form is unparseable (a `-` string that does not split
into two integers, or a non-`-` string that is not an integer) is passed
through unchanged into the output. -/
theorem expand_total_and_passthrough (inp : ExpandInput) :
    expand inp = expandList (inputList inp) ∧
    (∀ s : String, expandStr s ≠ []) ∧
    (∀ e ∈ inputList inp, unparseable (pyStrS e) = true →
      PyScalar.s (pyStrS e) ∈ expand inp) := by
  refine ⟨?_, expandStr_ne_nil, ?_⟩
  · cases inp <;> rfl
  · intro e he hu
    have hstable := expandStr_unparseable (pyStrS e) hu
    have hmem : PyScalar.s (pyStrS e) ∈ expandStr (pyStrS e) := by
      rw [hstable]
      exact List.mem_singleton.mpr rfl
    cases inp with
    | scalar x =>
      have hex : e = x := by simpa [inputList] using he
      subst hex
      exact mem_expandList_of_mem _ e [e] (by simp) hmem
    | list xs => exact mem_expandList_of_mem _ e xs he hmem

/-- C7: `expand` of a non-list input equals `expand` of the one-element
list holding it, and an element whose string form contains no `-` is
emitted as its integer parse when that parse succeeds, otherwise as the
original string; `expand(5) = [5]`. -/
theorem expand_scalar_and_plain (x : PyScalar) (s : String)
    (h : s.data.contains '-' = false) :
    expand (.scalar x) = expand (.list [x]) ∧
    (∀ n : Int, pyIntOfChars s.data = some n → expandStr s = [PyScalar.i n]) ∧
    (pyIntOfChars s.data = none → expandStr s = [PyScalar.s s]) ∧
    expand (.scalar (.i 5)) = [PyScalar.i 5] :=
  ⟨rfl, fun n hn => expandStr_int s n h hn,
    fun hp => expandStr_passthrough s h hp, by decide⟩

/-- Witness for C7 at `x = 5` and `s = "X"`. -/
theorem expand_scalar_and_plain_witness :
    ("X".data.contains '-' = false) ∧
    (expand (.scalar (.i 5)) = expand (.list [.i 5]) ∧
     (∀ n : Int, pyIntOfChars "X".data = some n → expandStr "X" = [PyScalar.i n]) ∧
     (pyIntOfChars "X".data = none → expandStr "X" = [PyScalar.s "X"]) ∧
     expand (.scalar (.i 5)) = [PyScalar.i 5]) :=
  ⟨by decide, expand_scalar_and_plain (.i 5) "X" (by decide)⟩

/-- C8: `expand` is a flat-map over its input: it distributes over list
concatenation, and on a list it is exactly the concatenation of the
per-element expansions in input order (no sorting, no deduplication). -/
theorem expand_flat_map (l1 l2 : List PyScalar) :
    expand (.list (l1 ++ l2)) = expand (.list l1) ++ expand (.list l2) ∧
    expand (.list l1) = l1.flatMap (fun e => expandStr (pyStrS e)) := by
  constructor
  · show expandList (l1 ++ l2) = expandList l1 ++ expandList l2
    induction l1 with
    | nil => rfl
    | cons x xs ih =>
      show expandStr (pyStrS x) ++ expandList (xs ++ l2) =
        (expandStr (pyStrS x) ++ expandList xs) ++ expandList l2
      rw [ih, List.append_assoc]
  · show expandList l1 = l1.flatMap fun e => expandStr (pyStrS e)
    induction l1 with
    | nil => rfl
    | cons x xs ih =>
      rw [expandList, List.flatMap_cons, ih]

/-- C9 (implicit): an input outside the documented union (matched by no
`isinstance` branch) falls through the whole `if`/`elif` chain, so
`parse_number_and_unit` returns the absent result rather than raising. -/
theorem pnu_unknown_type (du : Option String) :
    parse_number_and_unit PNUInput.other du = Except.ok none := rfl

/-- C10 (implicit): on the table domain the AWG lookup and the mm² lookup
are exact inverses (`mm2_equiv (awg_equiv k) = k` for every key of
`awg_equiv_table` and `awg_equiv (mm2_equiv a) = a` for every key of
`mm2_equiv_table`), and every argument whose string form is outside the
respective table yields `"Unknown"`. -/
theorem awg_mm2_inverse :
    (∀ p ∈ awg_equiv_table, mm2_equiv (PyScalar.s (awg_equiv (PyScalar.s p.1))) = p.1) ∧
    (∀ p ∈ mm2_equiv_table, awg_equiv (PyScalar.s (mm2_equiv (PyScalar.s p.1))) = p.1) ∧
    (∀ x : PyScalar, pyStrS x ∉ awg_equiv_table.map Prod.fst → awg_equiv x = "Unknown") ∧
    (∀ x : PyScalar, pyStrS x ∉ mm2_equiv_table.map Prod.fst → mm2_equiv x = "Unknown") := by
  refine ⟨by decide, by decide, ?_, ?_⟩
  · intro x hx
    have hnone : awg_equiv_table.find? (fun p => p.1 == pyStrS x) = none := by
      rw [List.find?_eq_none]
      intro p hp hbeq
      exact hx (List.mem_map.mpr ⟨p, hp, by simpa using hbeq⟩)
    rw [awg_equiv, dictGet, hnone]
  · intro x hx
    have hnone : mm2_equiv_table.find? (fun p => p.1 == pyStrS x) = none := by
      rw [List.find?_eq_none]
      intro p hp hbeq
      exact hx (List.mem_map.mpr ⟨p, hp, by simpa using hbeq⟩)
    rw [mm2_equiv, dictGet, hnone]
